import Mathlib

/-!
Shallow embedding of the SimpleAsync task scheduler (src/SimpleAsync.h,
src/ThreadPool.h) and proofs about it.

Modelling conventions:
* `std::unordered_map<K, V>` becomes an association list with unique-key
  insert semantics (`insertT` erases the key first).
* The task result type `T` is fixed to `Nat`; an exception thrown by a task
  body and stored in the `std::future` is modelled as `Except.error`.
* `std::chrono::steady_clock::time_point` and the float millisecond
  durations become `Int` milliseconds; `Update` receives the current time
  as an explicit argument.
* The user callback and the timeout handler are modelled as emitted events:
  each operation returns, besides the new state, the list of values the
  callback was invoked with (resp. the task ids the timeout handler was
  invoked with).
* Worker threads are modelled by an explicit transition `FinishTask` that
  makes a task's future ready (the worker loop of ThreadPool.h, lines
  23-47, executes the bound closure and fulfils the promise).
-/

namespace SA

/-- An association table mirroring `std::unordered_map`. -/
abbrev Table (κ β : Type) : Type := List (κ × β)

/-- `m.find(k)` on the table. -/
def lookupT {κ β : Type} [DecidableEq κ] : Table κ β → κ → Option β
| [], _ => none
| (k2, v) :: rest, k => if k2 = k then some v else lookupT rest k

/-- `m.erase(k)` on the table (all occurrences of the key). -/
def eraseT {κ β : Type} [DecidableEq κ] (m : Table κ β) (k : κ) : Table κ β :=
  m.filter (fun p => p.1 ≠ k)

/-- `m[k] = v` on the table: unique-key insert. -/
def insertT {κ β : Type} [DecidableEq κ] (m : Table κ β) (k : κ) (v : β) : Table κ β :=
  (k, v) :: eraseT m k

instance {ε α : Type} [DecidableEq ε] [DecidableEq α] : DecidableEq (Except ε α) := fun x y =>
  match x, y with
  | .ok a, .ok b =>
    if h : a = b then .isTrue (by rw [h]) else .isFalse (fun hc => h (Except.ok.inj hc))
  | .error a, .error b =>
    if h : a = b then .isTrue (by rw [h]) else .isFalse (fun hc => h (Except.error.inj hc))
  | .ok _, .error _ => .isFalse (fun hc => Except.noConfusion hc)
  | .error _, .ok _ => .isFalse (fun hc => Except.noConfusion hc)

/-- Shallow embedding of `ConcreteAsyncTaskWrapper<T>` (SimpleAsync.h, 35-83),
with `T` fixed to `Nat`. `taskValid` models `Task.valid()`; `taskReady`
models the worker having fulfilled the promise (so that
`Task.wait_for(0) == ready`); `taskResult` is what `Task.get()` yields once
ready — `Except.error` stands for a stored exception that `get()` rethrows. -/
structure Wrapper where
  ID : Nat
  taskValid : Bool
  taskReady : Bool
  taskResult : Except String Nat
  CallbackInvoked : Bool
deriving DecidableEq, Repr

/-- `ConcreteAsyncTaskWrapper::CheckAndExecuteCallback` (SimpleAsync.h, 63-82).
Returns `(finished, wrapper after the call, values the callback was invoked
with)`. The `catch (...)` of the source swallows a rethrown task exception
and still returns `true`, so the error branch emits no callback value. After
`get()` the future is no longer valid, in the error case as well. -/
def CheckAndExecuteCallback (w : Wrapper) : Bool × Wrapper × List Nat :=
  if w.taskValid then
    if w.taskReady then
      if !w.CallbackInvoked then
        match w.taskResult with
        | .ok v => (true, { w with CallbackInvoked := true, taskValid := false }, [v])
        | .error _ => (true, { w with CallbackInvoked := true, taskValid := false }, [])
      else (true, w, [])
    else (false, w, [])
  else (true, w, [])

/-- `ConcreteAsyncTaskWrapper::ForceWait` (SimpleAsync.h, 48-61). `Task.wait()`
blocks until the worker fulfils the promise, which the model expresses by
the result becoming ready at this step; the `catch (...)` swallows a
rethrown task exception. `CallbackInvoked` is set in every path of the
guarded branch. -/
def Wrapper.ForceWait (w : Wrapper) : Wrapper × List Nat :=
  if w.taskValid && !w.CallbackInvoked then
    match w.taskResult with
    | .ok v => ({ w with taskReady := true, CallbackInvoked := true, taskValid := false }, [v])
    | .error _ => ({ w with taskReady := true, CallbackInvoked := true, taskValid := false }, [])
  else (w, [])

/-- `TaskTimeout` (SimpleAsync.h, 29-33), times in integer milliseconds. -/
structure TaskTimeout where
  TimeoutMs : Int
  StartedTime : Int
deriving DecidableEq, Repr

/-- A worker pool as the scheduler sees it: its thread count and the FIFO
queue of task ids enqueued into it (`ThreadPool::EnqueueTask` appends). -/
structure PoolState where
  threads : Nat
  queue : List Nat
deriving DecidableEq, Repr

/-- The error taxonomy of the scheduler's throwing operations, one
constructor per `throw std::runtime_error` site in SimpleAsync.h. -/
inductive SchedErr where
| NotInitialized
| UnknownPool
| EmptyName
| DuplicatePool
deriving DecidableEq, Repr

/-- The static state of class `SimpleAsync` (SimpleAsync.h, 264-272). The
value stored in `m_cancellations` is the token's `Canceled` flag; the value
in `m_timeoutCallbacks` only records that a handler is stored (the handler
itself is modelled as the emitted event). -/
structure SchedState where
  m_tasks : Table Nat Wrapper
  m_cancellations : Table Nat Bool
  m_timepoints : Table Nat TaskTimeout
  m_timeoutCallbacks : Table Nat Bool
  m_threadPools : Table String PoolState
  m_id : Nat
  Initialized : Bool
  m_defaultPoolName : String
deriving DecidableEq, Repr

/-- The state at program start: every table empty, `m_id = 0`,
`m_initialized = false`. -/
def initState : SchedState := ⟨[], [], [], [], [], 0, false, ""⟩

/-- `SimpleAsync::CreateTaskInPool` (SimpleAsync.h, 100-136). `res` is the
outcome the bound task closure will eventually produce on a worker
(`Except.error` models the body throwing); at submission the future is not
yet ready. Throws `NotInitialized` ("Initialize was never called!") or
`UnknownPool` ("Thread pool does not exist"); otherwise mints `id = m_id++`,
enqueues the closure into the named pool, and stores the wrapper and a fresh
(uncancelled) token under `id`. -/
def CreateTaskInPool (s : SchedState) (poolName : String) (res : Except String Nat) :
    Except SchedErr (Nat × SchedState) :=
  if !s.Initialized then .error .NotInitialized
  else match lookupT s.m_threadPools poolName with
  | none => .error .UnknownPool
  | some pool =>
    let id := s.m_id
    let w : Wrapper := ⟨id, true, false, res, false⟩
    .ok (id, { s with
      m_threadPools := insertT s.m_threadPools poolName { pool with queue := pool.queue ++ [id] },
      m_tasks := insertT s.m_tasks id w,
      m_cancellations := insertT s.m_cancellations id false,
      m_id := id + 1 })

/-- `SimpleAsync::CreateTask` (SimpleAsync.h, 89-97): submission to the
default pool. -/
def CreateTask (s : SchedState) (res : Except String Nat) :
    Except SchedErr (Nat × SchedState) :=
  CreateTaskInPool s s.m_defaultPoolName res

/-- `SimpleAsync::CreateTaskTimeout` (SimpleAsync.h, 138-157). `now` is the
`steady_clock::now()` sampled at line 152. Note: line 144 of the source
passes `m_defaultPoolName` — not the `poolName` parameter — to
`CreateTaskInPool`; the model reproduces that. On success it stores the
timeout handler and a `TaskTimeout` with the given duration and start
time under the new id. -/
def CreateTaskTimeout (s : SchedState) (poolName : String) (timeoutMilliseconds : Int)
    (now : Int) (res : Except String Nat) : Except SchedErr (Nat × SchedState) :=
  match CreateTaskInPool s s.m_defaultPoolName res with
  | .error e => .error e
  | .ok (id, s1) => .ok (id, { s1 with
      m_timeoutCallbacks := insertT s1.m_timeoutCallbacks id true,
      m_timepoints := insertT s1.m_timepoints id ⟨timeoutMilliseconds, now⟩ })

/-- `SimpleAsync::ForceWait` (SimpleAsync.h, 159-168). If the id is tracked,
force-delivers the wrapper, then erases the task-table and token-table
entries; otherwise does nothing. The returned list holds the `(id, value)`
pairs the callback was invoked with. -/
def ForceWait (s : SchedState) (id : Nat) : SchedState × List (Nat × Nat) :=
  match lookupT s.m_tasks id with
  | none => (s, [])
  | some w =>
    ({ s with m_tasks := eraseT s.m_tasks id, m_cancellations := eraseT s.m_cancellations id },
     (Wrapper.ForceWait w).2.map (fun v => (id, v)))

/-- The timeout scan of `SimpleAsync::Update` (SimpleAsync.h, 173-197): walk
`m_timepoints`; an entry whose elapsed time has reached its duration fires
the stored handler (if any), erases the handler, and is itself erased.
Returns the remaining timepoints, the remaining handlers, and the ids the
handler fired for. -/
def scanTimeouts (now : Int) :
    Table Nat TaskTimeout → Table Nat Bool →
    Table Nat TaskTimeout × Table Nat Bool × List Nat
| [], cbs => ([], cbs, [])
| (k, v) :: rest, cbs =>
  if now - v.StartedTime ≥ v.TimeoutMs then
    match lookupT cbs k with
    | some _ =>
      let r := scanTimeouts now rest (eraseT cbs k)
      (r.1, r.2.1, k :: r.2.2)
    | none =>
      let r := scanTimeouts now rest cbs
      (r.1, r.2.1, r.2.2)
  else
    let r := scanTimeouts now rest cbs
    ((k, v) :: r.1, r.2.1, r.2.2)

/-- The delivery loop of `SimpleAsync::Update` (SimpleAsync.h, 199-208):
`CheckAndExecuteCallback` each task, erase those that report finished.
Returns the remaining task table and the `(id, value)` pairs delivered. -/
def pollTasks : Table Nat Wrapper → Table Nat Wrapper × List (Nat × Nat)
| [] => ([], [])
| (k, w) :: rest =>
  let c := CheckAndExecuteCallback w
  let r := pollTasks rest
  if c.1 then (r.1, c.2.2.map (fun v => (k, v)) ++ r.2)
  else ((k, c.2.1) :: r.1, c.2.2.map (fun v => (k, v)) ++ r.2)

/-- `SimpleAsync::Update` (SimpleAsync.h, 170-209): the timeout scan, then
the delivery loop. Returns the new state, the ids whose timeout handler
fired, and the `(id, value)` callback deliveries. -/
def Update (s : SchedState) (now : Int) : SchedState × List Nat × List (Nat × Nat) :=
  let t := scanTimeouts now s.m_timepoints s.m_timeoutCallbacks
  let p := pollTasks s.m_tasks
  ({ s with m_timepoints := t.1, m_timeoutCallbacks := t.2.1, m_tasks := p.1 }, t.2.2, p.2)

/-- `SimpleAsync::Cancel` (SimpleAsync.h, 211-218): if the id is still in the
task table, set the associated token's flag. -/
def Cancel (s : SchedState) (id : Nat) : SchedState :=
  match lookupT s.m_tasks id with
  | some _ => { s with m_cancellations := insertT s.m_cancellations id true }
  | none => s

/-- `SimpleAsync::CreatePool` (SimpleAsync.h, 220-230). Throws `EmptyName`
("Pool name cannot be empty") or `DuplicatePool` ("Pool name already
exists"); otherwise adds a fresh pool with an empty queue. -/
def CreatePool (s : SchedState) (poolName : String) (threadsCount : Nat) :
    Except SchedErr SchedState :=
  if poolName = "" then .error .EmptyName
  else match lookupT s.m_threadPools poolName with
  | some _ => .error .DuplicatePool
  | none => .ok { s with m_threadPools := insertT s.m_threadPools poolName ⟨threadsCount, []⟩ }

/-- `SimpleAsync::Initialize` (SimpleAsync.h, 232-241): an empty requested
default name falls back to "DefaultPool"; the default pool is (re)created
and `m_initialized` set. No table is cleared here. -/
def Initialize (s : SchedState) (defaultPoolName : String) (maxThreads : Nat) : SchedState :=
  let poolName := if defaultPoolName = "" then "DefaultPool" else defaultPoolName
  { s with m_defaultPoolName := poolName,
           m_threadPools := insertT s.m_threadPools poolName ⟨maxThreads, []⟩,
           Initialized := true }

/-- `SimpleAsync::Destroy` (SimpleAsync.h, 252-257): clears `m_tasks` and
`m_threadPools` — and nothing else. No callback is invoked (the function
emits no event), and `m_initialized`, `m_cancellations`, `m_timepoints`,
`m_timeoutCallbacks`, `m_id` are untouched. -/
def Destroy (s : SchedState) : SchedState :=
  { s with m_tasks := [], m_threadPools := [] }

/-- A worker thread of the pool (ThreadPool.h, 23-47) finishing the bound
closure of task `id`: the future held by the wrapper becomes ready. -/
def FinishTask (s : SchedState) (id : Nat) : SchedState :=
  { s with m_tasks :=
      s.m_tasks.map (fun p => if p.1 = id then (p.1, { p.2 with taskReady := true }) else p) }

/-- One call the driving application can make between submissions: a `Poll`
(`Update`) at a given clock value, a `ForceWait` on an id, or (interleaved
by the runtime, not the application) a worker finishing a task. -/
inductive SchedOp where
| poll (now : Int)
| forceWait (id : Nat)
| finish (id : Nat)
deriving DecidableEq, Repr

/-- One step of the driver loop; emits the `(id, value)` callback deliveries
of that step. -/
def stepSched (s : SchedState) : SchedOp → SchedState × List (Nat × Nat)
| .poll now => ((Update s now).1, (Update s now).2.2)
| .forceWait id => ForceWait s id
| .finish id => (FinishTask s id, [])

/-- Run a sequence of driver steps, concatenating the callback deliveries. -/
def runSched (s : SchedState) : List SchedOp → SchedState × List (Nat × Nat)
| [] => (s, [])
| op :: ops =>
  ((runSched (stepSched s op).1 ops).1,
   (stepSched s op).2 ++ (runSched (stepSched s op).1 ops).2)

/-- Run a sequence of `Update` calls at the given clock values, concatenating
the ids the timeout handler fired for. -/
def RunUpdates (s : SchedState) : List Int → SchedState × List Nat
| [] => (s, [])
| now :: rest =>
  ((RunUpdates (Update s now).1 rest).1,
   (Update s now).2.1 ++ (RunUpdates (Update s now).1 rest).2)

/-! ### Table lemmas -/

theorem lookupT_eraseT_self {κ β : Type} [DecidableEq κ] (m : Table κ β) (k : κ) :
    lookupT (eraseT m k) k = none := by
  induction m with
  | nil => rfl
  | cons p rest ih =>
    by_cases h : p.1 = k
    · simpa [eraseT, h] using ih
    · simpa [eraseT, lookupT, h] using ih

theorem lookupT_eraseT_ne {κ β : Type} [DecidableEq κ] (m : Table κ β) (k k2 : κ)
    (h : k2 ≠ k) : lookupT (eraseT m k) k2 = lookupT m k2 := by
  induction m with
  | nil => rfl
  | cons p rest ih =>
    obtain ⟨a, b⟩ := p
    by_cases hp : a = k
    · have hne : ¬ a = k2 := by rw [hp]; exact fun hc => h hc.symm
      rw [show eraseT ((a, b) :: rest) k = eraseT rest k by simp [eraseT, hp]]
      rw [show lookupT ((a, b) :: rest) k2 = lookupT rest k2 by simp [lookupT, hne]]
      exact ih
    · rw [show eraseT ((a, b) :: rest) k = (a, b) :: eraseT rest k by simp [eraseT, hp]]
      by_cases hp2 : a = k2
      · simp [lookupT, hp2]
      · simp only [lookupT, hp2, if_neg hp2]
        exact ih

theorem lookupT_insertT_self {κ β : Type} [DecidableEq κ] (m : Table κ β) (k : κ) (v : β) :
    lookupT (insertT m k v) k = some v := by
  simp [insertT, lookupT]

theorem lookupT_insertT_ne {κ β : Type} [DecidableEq κ] (m : Table κ β) (k k2 : κ) (v : β)
    (h : k2 ≠ k) : lookupT (insertT m k v) k2 = lookupT m k2 := by
  have : ¬ k = k2 := fun hc => h hc.symm
  simp [insertT, lookupT, this, lookupT_eraseT_ne m k k2 h]

theorem lookupT_isSome_insertT {κ β : Type} [DecidableEq κ] (m : Table κ β) (k k2 : κ) (v : β)
    (h : (lookupT m k2).isSome) : (lookupT (insertT m k v) k2).isSome := by
  by_cases hk : k2 = k
  · rw [hk, lookupT_insertT_self]; rfl
  · rw [lookupT_insertT_ne m k k2 v hk]; exact h

/-! ### Wrapper lemmas -/

theorem check_emits_le_one (w : Wrapper) : (CheckAndExecuteCallback w).2.2.length ≤ 1 := by
  unfold CheckAndExecuteCallback
  split <;> try simp
  split <;> try simp
  split <;> try simp
  split <;> simp

theorem check_emits_mem (w : Wrapper) (v : Nat) (h : v ∈ (CheckAndExecuteCallback w).2.2) :
    w.taskValid = true ∧ w.taskReady = true ∧ w.CallbackInvoked = false ∧
      w.taskResult = Except.ok v := by
  unfold CheckAndExecuteCallback at h
  by_cases h1 : w.taskValid = true
  · by_cases h2 : w.taskReady = true
    · by_cases h3 : w.CallbackInvoked = true
      · simp [h1, h2, h3] at h
      · have h3f : w.CallbackInvoked = false := by simpa using h3
        rcases hr : w.taskResult with v2 | v2 <;> simp [h1, h2, h3f, hr] at h
        subst h
        exact ⟨h1, h2, h3f, rfl⟩
    · simp [h1, by simpa using h2] at h
  · simp [by simpa using h1] at h

theorem check_invoked_emits_nil (w : Wrapper) (h : w.CallbackInvoked = true) :
    (CheckAndExecuteCallback w).2.2 = [] := by
  unfold CheckAndExecuteCallback
  split <;> try rfl
  split <;> try rfl
  simp [h]

theorem check_post_invoked (w : Wrapper) (h : (CheckAndExecuteCallback w).2.2 ≠ []) :
    (CheckAndExecuteCallback w).2.1.CallbackInvoked = true := by
  unfold CheckAndExecuteCallback at *
  by_cases h1 : w.taskValid = true
  · by_cases h2 : w.taskReady = true
    · by_cases h3 : w.CallbackInvoked = true
      · simp [h1, h2, h3] at h
      · rcases hr : w.taskResult with v2 | v2 <;> simp [h1, h2, h3, hr]
    · simp [h1, by simpa using h2] at h
  · simp [by simpa using h1] at h

theorem check_error_emits_nil (w : Wrapper) (e : String) (h : w.taskResult = Except.error e) :
    (CheckAndExecuteCallback w).2.2 = [] := by
  unfold CheckAndExecuteCallback
  split <;> try rfl
  split <;> try rfl
  split <;> try rfl
  simp [h]

theorem check_finished_of_ready (w : Wrapper) (h : w.taskReady = true) :
    (CheckAndExecuteCallback w).1 = true := by
  unfold CheckAndExecuteCallback
  by_cases h1 : w.taskValid = true
  · by_cases h3 : w.CallbackInvoked = true <;>
      rcases hr : w.taskResult with v | e <;> simp [h1, h, h3, hr]
  · simp [by simpa using h1]

theorem forceWaitW_error_emits_nil (w : Wrapper) (e : String)
    (h : w.taskResult = Except.error e) : (Wrapper.ForceWait w).2 = [] := by
  unfold Wrapper.ForceWait
  split <;> try rfl
  simp [h]

/-! ### pollTasks lemmas -/

/-- Number of deliveries for a given task id. -/
def countK (l : List (Nat × Nat)) (id : Nat) : Nat := (l.filter (fun p => p.1 = id)).length

theorem countK_append (a b : List (Nat × Nat)) (id : Nat) :
    countK (a ++ b) id = countK a id + countK b id := by
  simp [countK, List.filter_append]

theorem countK_cons (p : Nat × Nat) (l : List (Nat × Nat)) (id : Nat) :
    countK (p :: l) id = (if p.1 = id then 1 else 0) + countK l id := by
  by_cases h : p.1 = id <;> simp [countK, List.filter_cons, h, Nat.add_comm]

theorem countK_map_self (l : List Nat) (id : Nat) :
    countK (l.map (fun v => (id, v))) id = l.length := by
  induction l with
  | nil => rfl
  | cons x rest ih => simp [List.map_cons, countK_cons, ih, Nat.add_comm]

theorem countK_map_ne (l : List Nat) (a id : Nat) (h : a ≠ id) :
    countK (l.map (fun v => (a, v))) id = 0 := by
  induction l with
  | nil => rfl
  | cons x rest ih => simp [List.map_cons, countK_cons, h, ih]

theorem pollTasks_cons_snd (a : Nat) (w : Wrapper) (rest : Table Nat Wrapper) :
    (pollTasks ((a, w) :: rest)).2 =
      (CheckAndExecuteCallback w).2.2.map (fun v => (a, v)) ++ (pollTasks rest).2 := by
  by_cases hf : (CheckAndExecuteCallback w).1 = true <;> simp [pollTasks, hf]

theorem pollTasks_cons_fst (a : Nat) (w : Wrapper) (rest : Table Nat Wrapper) :
    (pollTasks ((a, w) :: rest)).1 =
      if (CheckAndExecuteCallback w).1 = true then (pollTasks rest).1
      else (a, (CheckAndExecuteCallback w).2.1) :: (pollTasks rest).1 := by
  by_cases hf : (CheckAndExecuteCallback w).1 = true <;> simp [pollTasks, hf]

theorem pollTasks_lookup_none (ts : Table Nat Wrapper) (k : Nat)
    (h : lookupT ts k = none) :
    lookupT (pollTasks ts).1 k = none ∧ countK (pollTasks ts).2 k = 0 := by
  induction ts with
  | nil => exact ⟨rfl, rfl⟩
  | cons p rest ih =>
    obtain ⟨a, w⟩ := p
    have ha : ¬ a = k := by
      intro hc
      rw [lookupT, if_pos hc] at h
      cases h
    rw [lookupT, if_neg ha] at h
    obtain ⟨ih1, ih2⟩ := ih h
    refine ⟨?_, ?_⟩
    · rw [pollTasks_cons_fst]
      split
      · exact ih1
      · rw [lookupT, if_neg ha]; exact ih1
    · rw [pollTasks_cons_snd, countK_append, countK_map_ne _ _ _ ha, ih2]

theorem pollTasks_lookup_some (ts : Table Nat Wrapper) (k : Nat) (w : Wrapper)
    (hnd : (ts.map Prod.fst).Nodup) (h : lookupT ts k = some w) :
    countK (pollTasks ts).2 k = (CheckAndExecuteCallback w).2.2.length ∧
    ((CheckAndExecuteCallback w).1 = true → lookupT (pollTasks ts).1 k = none) := by
  induction ts with
  | nil => cases h
  | cons p rest ih =>
    obtain ⟨a, w2⟩ := p
    rw [List.map_cons, List.nodup_cons] at hnd
    by_cases ha : a = k
    · rw [lookupT, if_pos ha] at h
      injection h with h
      subst h
      subst ha
      have hrest : lookupT rest a = none := by
        rcases hl : lookupT rest a with _ | w3
        · rfl
        · exfalso
          apply hnd.1
          clear ih hnd
          induction rest with
          | nil => cases hl
          | cons q rest2 ih2 =>
            obtain ⟨b, w4⟩ := q
            by_cases hb : b = a
            · simp [hb]
            · rw [lookupT, if_neg hb] at hl
              simp [ih2 hl]
      obtain ⟨h1, h2⟩ := pollTasks_lookup_none rest a hrest
      refine ⟨?_, ?_⟩
      · rw [pollTasks_cons_snd, countK_append, countK_map_self, h2]
        omega
      · intro hf
        rw [pollTasks_cons_fst, if_pos hf]
        exact h1
    · rw [lookupT, if_neg ha] at h
      obtain ⟨ih1, ih2⟩ := ih hnd.2 h
      refine ⟨?_, ?_⟩
      · rw [pollTasks_cons_snd, countK_append, countK_map_ne _ _ _ ha, ih1]
        omega
      · intro hf
        rw [pollTasks_cons_fst]
        split
        · exact ih2 hf
        · rw [lookupT, if_neg ha]; exact ih2 hf

theorem forceWaitW_emits_le_one (w : Wrapper) : (Wrapper.ForceWait w).2.length ≤ 1 := by
  unfold Wrapper.ForceWait
  split
  · split <;> simp
  · simp

theorem lookupT_of_mem_nodup {κ β : Type} [DecidableEq κ] (l : Table κ β) (k : κ) (w : β)
    (hnd : (l.map Prod.fst).Nodup) (h : (k, w) ∈ l) : lookupT l k = some w := by
  induction l with
  | nil => cases h
  | cons p rest ih =>
    obtain ⟨a, b⟩ := p
    rw [List.map_cons, List.nodup_cons] at hnd
    rcases List.mem_cons.mp h with h | h
    · injection h with h1 h2
      rw [lookupT, if_pos h1.symm, h2]
    · have hk : k ∈ rest.map Prod.fst := List.mem_map.mpr ⟨(k, w), h, rfl⟩
      have ha : ¬ a = k := fun hc => hnd.1 (hc ▸ hk)
      rw [lookupT, if_neg ha]
      exact ih hnd.2 h

theorem pollTasks_delivered_mem (ts : Table Nat Wrapper) (k v : Nat)
    (h : (k, v) ∈ (pollTasks ts).2) :
    ∃ w, (k, w) ∈ ts ∧ v ∈ (CheckAndExecuteCallback w).2.2 := by
  induction ts with
  | nil => cases h
  | cons p rest ih =>
    obtain ⟨a, w2⟩ := p
    rw [pollTasks_cons_snd] at h
    rcases List.mem_append.mp h with h | h
    · rcases List.mem_map.mp h with ⟨v2, hv2, heq⟩
      injection heq with h1 h2
      exact ⟨w2, h1 ▸ List.mem_cons_self _ _, h2 ▸ hv2⟩
    · rcases ih h with ⟨w3, hmem, hv⟩
      exact ⟨w3, List.mem_cons_of_mem _ hmem, hv⟩

theorem eraseT_keys_sublist {κ β : Type} [DecidableEq κ] (m : Table κ β) (k : κ) :
    ((eraseT m k).map Prod.fst).Sublist (m.map Prod.fst) :=
  (List.filter_sublist m).map Prod.fst

theorem pollTasks_keys_sublist (ts : Table Nat Wrapper) :
    ((pollTasks ts).1.map Prod.fst).Sublist (ts.map Prod.fst) := by
  induction ts with
  | nil => simp [pollTasks]
  | cons p rest ih =>
    obtain ⟨a, w⟩ := p
    rw [pollTasks_cons_fst, List.map_cons]
    split
    · exact ih.cons a
    · rw [List.map_cons]
      exact ih.cons₂ a

theorem finish_map_keys (l : Table Nat Wrapper) (id : Nat) :
    (l.map (fun p => if p.1 = id then (p.1, { p.2 with taskReady := true }) else p)).map
      Prod.fst = l.map Prod.fst := by
  induction l with
  | nil => rfl
  | cons p rest ih => by_cases h : p.1 = id <;> simp [h, ih]

theorem lookupT_eq_none_iff {κ β : Type} [DecidableEq κ] (m : Table κ β) (k : κ) :
    lookupT m k = none ↔ k ∉ m.map Prod.fst := by
  induction m with
  | nil => simp [lookupT]
  | cons p rest ih =>
    obtain ⟨a, b⟩ := p
    rw [List.map_cons, List.mem_cons]
    by_cases h : a = k
    · constructor
      · intro hl
        rw [lookupT, if_pos h] at hl
        cases hl
      · intro hn
        exact absurd (Or.inl h.symm) hn
    · rw [lookupT, if_neg h, ih]
      constructor
      · intro hn hc
        rcases hc with hc | hc
        · exact h hc.symm
        · exact hn hc
      · intro hn hc
        exact hn (Or.inr hc)

theorem lookupT_finish_map_none (l : Table Nat Wrapper) (id k : Nat)
    (h : lookupT l k = none) :
    lookupT (l.map (fun p => if p.1 = id then (p.1, { p.2 with taskReady := true }) else p))
      k = none := by
  rw [lookupT_eq_none_iff] at h ⊢
  rw [finish_map_keys]
  exact h

/-! ### Scheduler driver-trace lemmas -/

/-- Key uniqueness of the task table, the invariant `std::unordered_map`
maintains by construction. -/
abbrev KNodup (s : SchedState) : Prop := (s.m_tasks.map Prod.fst).Nodup

theorem stepSched_knodup (s : SchedState) (op : SchedOp) (h : KNodup s) :
    KNodup (stepSched s op).1 := by
  cases op with
  | poll now =>
    show ((pollTasks s.m_tasks).1.map Prod.fst).Nodup
    exact (pollTasks_keys_sublist s.m_tasks).nodup h
  | forceWait id =>
    show KNodup (ForceWait s id).1
    unfold ForceWait
    rcases hl : lookupT s.m_tasks id with _ | w
    · exact h
    · show ((eraseT s.m_tasks id).map Prod.fst).Nodup
      exact (eraseT_keys_sublist s.m_tasks id).nodup h
  | finish id =>
    show KNodup (FinishTask s id)
    unfold KNodup FinishTask
    rw [finish_map_keys]
    exact h

theorem stepSched_absent (s : SchedState) (op : SchedOp) (id : Nat)
    (h : lookupT s.m_tasks id = none) :
    lookupT (stepSched s op).1.m_tasks id = none ∧ countK (stepSched s op).2 id = 0 := by
  cases op with
  | poll now => exact pollTasks_lookup_none s.m_tasks id h
  | forceWait id2 =>
    show lookupT (ForceWait s id2).1.m_tasks id = none ∧ countK (ForceWait s id2).2 id = 0
    unfold ForceWait
    rcases hl : lookupT s.m_tasks id2 with _ | w
    · exact ⟨h, rfl⟩
    · have hne : id2 ≠ id := by
        intro hc
        rw [hc] at hl
        rw [h] at hl
        cases hl
      constructor
      · by_cases hk : id = id2
        · rw [hk]; exact lookupT_eraseT_self _ _
        · rw [lookupT_eraseT_ne _ _ _ hk]; exact h
      · exact countK_map_ne _ _ _ hne
  | finish id2 =>
    exact ⟨lookupT_finish_map_none s.m_tasks id2 id h, rfl⟩

theorem stepSched_count (s : SchedState) (op : SchedOp) (id : Nat) (h : KNodup s) :
    countK (stepSched s op).2 id ≤ 1 ∧
    (1 ≤ countK (stepSched s op).2 id → lookupT (stepSched s op).1.m_tasks id = none) := by
  cases op with
  | poll now =>
    rcases hl : lookupT s.m_tasks id with _ | w
    · obtain ⟨h1, h2⟩ := pollTasks_lookup_none s.m_tasks id hl
      refine ⟨?_, fun hc => h1⟩
      show countK (pollTasks s.m_tasks).2 id ≤ 1
      rw [h2]
      exact Nat.zero_le 1
    · obtain ⟨h1, h2⟩ := pollTasks_lookup_some s.m_tasks id w h hl
      constructor
      · show countK (pollTasks s.m_tasks).2 id ≤ 1
        rw [h1]
        exact check_emits_le_one w
      · intro hge
        show lookupT (pollTasks s.m_tasks).1 id = none
        have hne : (CheckAndExecuteCallback w).2.2 ≠ [] := by
          intro hc
          rw [show countK (stepSched s (SchedOp.poll now)).2 id =
            countK (pollTasks s.m_tasks).2 id from rfl, h1, hc] at hge
          simp at hge
        rcases List.exists_mem_of_ne_nil _ hne with ⟨v, hv⟩
        exact h2 (check_finished_of_ready w (check_emits_mem w v hv).2.1)
  | forceWait id2 =>
    show countK (ForceWait s id2).2 id ≤ 1 ∧
      (1 ≤ countK (ForceWait s id2).2 id → lookupT (ForceWait s id2).1.m_tasks id = none)
    unfold ForceWait
    rcases hl : lookupT s.m_tasks id2 with _ | w
    · exact ⟨by simp [countK], fun hc => by simp [countK] at hc⟩
    · by_cases hk : id2 = id
      · subst hk
        constructor
        · calc countK ((Wrapper.ForceWait w).2.map (fun v => (id2, v))) id2
              = (Wrapper.ForceWait w).2.length := countK_map_self _ _
            _ ≤ 1 := forceWaitW_emits_le_one w
        · intro hge
          exact lookupT_eraseT_self _ _
      · rw [countK_map_ne _ _ _ hk]
        exact ⟨by omega, fun hc => by omega⟩
  | finish id2 =>
    have hz : countK (stepSched s (SchedOp.finish id2)).2 id = 0 := rfl
    exact ⟨hz ▸ Nat.zero_le 1, fun hc => absurd hc (by rw [hz]; omega)⟩

theorem runSched_absent (s : SchedState) (ops : List SchedOp) (id : Nat)
    (h : lookupT s.m_tasks id = none) : countK (runSched s ops).2 id = 0 := by
  induction ops generalizing s with
  | nil => rfl
  | cons op rest ih =>
    obtain ⟨h1, h2⟩ := stepSched_absent s op id h
    show countK ((stepSched s op).2 ++ (runSched (stepSched s op).1 rest).2) id = 0
    rw [countK_append, h2, ih _ h1]

theorem runSched_count_le_one (s : SchedState) (ops : List SchedOp) (id : Nat)
    (h : KNodup s) : countK (runSched s ops).2 id ≤ 1 := by
  induction ops generalizing s with
  | nil => exact Nat.zero_le 1
  | cons op rest ih =>
    show countK ((stepSched s op).2 ++ (runSched (stepSched s op).1 rest).2) id ≤ 1
    rw [countK_append]
    obtain ⟨h1, h2⟩ := stepSched_count s op id h
    by_cases hz : countK (stepSched s op).2 id = 0
    · rw [hz]
      simpa using ih _ (stepSched_knodup s op h)
    · have := runSched_absent _ rest id (h2 (by omega))
      omega

theorem update_delivered_ready (s : SchedState) (now : Int) (id v : Nat) (hnd : KNodup s)
    (h : (id, v) ∈ (Update s now).2.2) :
    ∃ w, lookupT s.m_tasks id = some w ∧ w.taskReady = true ∧
      w.taskResult = Except.ok v := by
  rcases pollTasks_delivered_mem s.m_tasks id v h with ⟨w, hmem, hv⟩
  obtain ⟨h1, h2, h3, h4⟩ := check_emits_mem w v hv
  exact ⟨w, lookupT_of_mem_nodup _ _ _ hnd hmem, h2, h4⟩

/-! ### The claims -/

/-- C1: across every sequence of driver steps (`Update`/Poll, `ForceWait`,
worker completions), a task's completion callback is delivered at most once;
an `Update` delivery for an id happens only when that task's future is
ready and carries exactly the produced result; and a repeated
`CheckAndExecuteCallback` on a handle that has delivered emits nothing. -/
theorem callback_delivered_at_most_once (s : SchedState) (ops : List SchedOp) (id : Nat)
    (hnd : KNodup s) :
    countK (runSched s ops).2 id ≤ 1 ∧
    (∀ now v, (id, v) ∈ (Update s now).2.2 →
      ∃ w, lookupT s.m_tasks id = some w ∧ w.taskReady = true ∧
        w.taskResult = Except.ok v) ∧
    (∀ w : Wrapper, (CheckAndExecuteCallback w).2.2 ≠ [] →
      (CheckAndExecuteCallback (CheckAndExecuteCallback w).2.1).2.2 = []) := by
  refine ⟨runSched_count_le_one s ops id hnd, ?_, ?_⟩
  · intro now v h
    exact update_delivered_ready s now id v hnd h
  · intro w h
    exact check_invoked_emits_nil _ (check_post_invoked w h)

/-- A state with one submitted task whose worker has finished with value 5. -/
def sOneTask : SchedState :=
  ⟨[(0, ⟨0, true, true, Except.ok 5, false⟩)], [(0, false)], [], [],
   [("DefaultPool", ⟨2, [0]⟩)], 1, true, "DefaultPool"⟩

theorem callback_delivered_at_most_once_witness :
    countK (runSched sOneTask [SchedOp.poll 0, SchedOp.poll 1, SchedOp.forceWait 0]).2 0 ≤ 1 ∧
    (∃ w, lookupT sOneTask.m_tasks 0 = some w ∧ w.taskReady = true ∧
      w.taskResult = Except.ok 5) :=
  ⟨(callback_delivered_at_most_once sOneTask
      [SchedOp.poll 0, SchedOp.poll 1, SchedOp.forceWait 0] 0 (by decide)).1,
   (callback_delivered_at_most_once sOneTask
      [SchedOp.poll 0, SchedOp.poll 1, SchedOp.forceWait 0] 0 (by decide)).2.1 0 5 (by decide)⟩

/-- C3: a task whose body raised a failure is contained at the
completion-handle boundary: `Update` reaps it like a successful task, its
callback is never invoked, `Wrapper.ForceWait` on it emits nothing, and no
error reaches the driver (the embedded `Update`/`ForceWait` are total — the
`catch (...)` of the source absorbs the stored exception). -/
theorem failure_contained (s : SchedState) (now : Int) (id : Nat) (w : Wrapper) (e : String)
    (hnd : KNodup s)
    (hw : lookupT s.m_tasks id = some w)
    (hr : w.taskReady = true)
    (he : w.taskResult = Except.error e) :
    lookupT (Update s now).1.m_tasks id = none ∧
    countK (Update s now).2.2 id = 0 ∧
    (Wrapper.ForceWait w).2 = [] ∧
    (CheckAndExecuteCallback w).1 = true := by
  obtain ⟨h1, h2⟩ := pollTasks_lookup_some s.m_tasks id w hnd hw
  refine ⟨h2 (check_finished_of_ready w hr), ?_, forceWaitW_error_emits_nil w e he,
    check_finished_of_ready w hr⟩
  show countK (pollTasks s.m_tasks).2 id = 0
  rw [h1, check_error_emits_nil w e he]
  rfl

/-- A wrapper whose task body threw. -/
def wErr : Wrapper := ⟨0, true, true, Except.error "boom", false⟩

/-- A state with one submitted task whose body threw. -/
def sErrTask : SchedState :=
  ⟨[(0, wErr)], [(0, false)], [], [], [("DefaultPool", ⟨2, [0]⟩)], 1, true, "DefaultPool"⟩

theorem failure_contained_witness :
    lookupT (Update sErrTask 0).1.m_tasks 0 = none ∧
    countK (Update sErrTask 0).2.2 0 = 0 ∧
    (Wrapper.ForceWait wErr).2 = [] ∧
    (CheckAndExecuteCallback wErr).1 = true :=
  failure_contained sErrTask 0 0 wErr "boom" (by decide) (by decide) (by decide) (by decide)

/-! ### Timeout-scan lemmas -/

theorem scan_tps_filter (now : Int) (tps : Table Nat TaskTimeout) (cbs : Table Nat Bool) :
    (scanTimeouts now tps cbs).1 =
      tps.filter (fun p => ¬ now - p.2.StartedTime ≥ p.2.TimeoutMs) := by
  induction tps generalizing cbs with
  | nil => rfl
  | cons p rest ih =>
    obtain ⟨k, v⟩ := p
    by_cases hx : now - v.StartedTime ≥ v.TimeoutMs
    · rcases hcb : lookupT cbs k with _ | b <;>
        simp [scanTimeouts, hx, hcb, List.filter_cons, ih]
    · have hlt : now - v.StartedTime < v.TimeoutMs := by omega
      simp [scanTimeouts, hx, List.filter_cons, ih, hlt]

theorem Update_fired_eq (s : SchedState) (now : Int) :
    (Update s now).2.1 = (scanTimeouts now s.m_timepoints s.m_timeoutCallbacks).2.2 := rfl

theorem Update_cbs_eq (s : SchedState) (now : Int) :
    (Update s now).1.m_timeoutCallbacks =
      (scanTimeouts now s.m_timepoints s.m_timeoutCallbacks).2.1 := rfl

theorem Update_tps_eq (s : SchedState) (now : Int) :
    (Update s now).1.m_timepoints =
      (scanTimeouts now s.m_timepoints s.m_timeoutCallbacks).1 := rfl

theorem scan_cbs_none (now : Int) (tps : Table Nat TaskTimeout) (cbs : Table Nat Bool)
    (k : Nat) (h : lookupT cbs k = none) :
    lookupT (scanTimeouts now tps cbs).2.1 k = none ∧
      k ∉ (scanTimeouts now tps cbs).2.2 := by
  induction tps generalizing cbs with
  | nil => exact ⟨h, by simp [scanTimeouts]⟩
  | cons p rest ih =>
    obtain ⟨k2, v⟩ := p
    by_cases hx : now - v.StartedTime ≥ v.TimeoutMs
    · rcases hcb : lookupT cbs k2 with _ | b
      · simpa [scanTimeouts, hx, hcb] using ih cbs h
      · have hk2 : ¬ k2 = k := by
          intro hc
          rw [hc, h] at hcb
          cases hcb
        have h2 : lookupT (eraseT cbs k2) k = none := by
          rw [lookupT_eraseT_ne cbs k2 k (fun hc => hk2 hc.symm)]
          exact h
        obtain ⟨ih1, ih2⟩ := ih (eraseT cbs k2) h2
        refine ⟨by simpa [scanTimeouts, hx, hcb] using ih1, ?_⟩
        simp only [scanTimeouts, hx, if_pos, hcb, List.mem_cons, not_or]
        exact ⟨fun hc => hk2 hc.symm, ih2⟩
    · simpa [scanTimeouts, hx] using ih cbs h

theorem scan_fired_mem (now : Int) (tps : Table Nat TaskTimeout) (cbs : Table Nat Bool)
    (k : Nat) (h : k ∈ (scanTimeouts now tps cbs).2.2) :
    (lookupT cbs k).isSome = true ∧
      ∃ tt, (k, tt) ∈ tps ∧ now - tt.StartedTime ≥ tt.TimeoutMs := by
  induction tps generalizing cbs with
  | nil => simp [scanTimeouts] at h
  | cons p rest ih =>
    obtain ⟨k2, v⟩ := p
    by_cases hx : now - v.StartedTime ≥ v.TimeoutMs
    · rcases hcb : lookupT cbs k2 with _ | b
      · rcases ih cbs (by simpa [scanTimeouts, hx, hcb] using h) with ⟨h1, tt, h2, h3⟩
        exact ⟨h1, tt, List.mem_cons_of_mem _ h2, h3⟩
      · have h2 : k = k2 ∨ k ∈ (scanTimeouts now rest (eraseT cbs k2)).2.2 := by
          simpa [scanTimeouts, hx, hcb] using h
        rcases h2 with h2 | h2
        · subst h2
          exact ⟨by rw [hcb]; rfl, v, List.mem_cons_self _ _, hx⟩
        · rcases ih (eraseT cbs k2) h2 with ⟨h1, tt, h3, h4⟩
          have hk2 : k ≠ k2 := by
            intro hc
            rw [hc, lookupT_eraseT_self] at h1
            cases h1
          rw [lookupT_eraseT_ne cbs k2 k hk2] at h1
          exact ⟨h1, tt, List.mem_cons_of_mem _ h3, h4⟩
    · rcases ih cbs (by simpa [scanTimeouts, hx] using h) with ⟨h1, tt, h2, h3⟩
      exact ⟨h1, tt, List.mem_cons_of_mem _ h2, h3⟩

theorem scan_fired_cbs_none (now : Int) (tps : Table Nat TaskTimeout) (cbs : Table Nat Bool)
    (k : Nat) (h : k ∈ (scanTimeouts now tps cbs).2.2) :
    lookupT (scanTimeouts now tps cbs).2.1 k = none := by
  induction tps generalizing cbs with
  | nil => simp [scanTimeouts] at h
  | cons p rest ih =>
    obtain ⟨k2, v⟩ := p
    by_cases hx : now - v.StartedTime ≥ v.TimeoutMs
    · rcases hcb : lookupT cbs k2 with _ | b
      · have h2 := ih cbs (by simpa [scanTimeouts, hx, hcb] using h)
        simpa [scanTimeouts, hx, hcb] using h2
      · have h2 : k = k2 ∨ k ∈ (scanTimeouts now rest (eraseT cbs k2)).2.2 := by
          simpa [scanTimeouts, hx, hcb] using h
        have hgoal : lookupT (scanTimeouts now rest (eraseT cbs k2)).2.1 k = none := by
          rcases h2 with h2 | h2
          · subst h2
            exact (scan_cbs_none now rest (eraseT cbs k) k (lookupT_eraseT_self cbs k)).1
          · exact ih (eraseT cbs k2) h2
        simpa [scanTimeouts, hx, hcb] using hgoal
    · have h2 := ih cbs (by simpa [scanTimeouts, hx] using h)
      simpa [scanTimeouts, hx] using h2

theorem scan_fired_count_le_one (now : Int) (tps : Table Nat TaskTimeout)
    (cbs : Table Nat Bool) (k : Nat) :
    (scanTimeouts now tps cbs).2.2.count k ≤ 1 := by
  induction tps generalizing cbs with
  | nil => simp [scanTimeouts]
  | cons p rest ih =>
    obtain ⟨k2, v⟩ := p
    by_cases hx : now - v.StartedTime ≥ v.TimeoutMs
    · rcases hcb : lookupT cbs k2 with _ | b
      · simpa [scanTimeouts, hx, hcb] using ih cbs
      · by_cases hk : k = k2
        · subst hk
          have hnm : k ∉ (scanTimeouts now rest (eraseT cbs k)).2.2 :=
            (scan_cbs_none now rest (eraseT cbs k) k (lookupT_eraseT_self cbs k)).2
          simp [scanTimeouts, hx, hcb, List.count_cons,
            List.count_eq_zero_of_not_mem hnm]
        · have h2 := ih (eraseT cbs k2)
          simpa [scanTimeouts, hx, hcb, List.count_cons, hk] using h2
    · simpa [scanTimeouts, hx] using ih cbs

theorem RunUpdates_no_fire (s : SchedState) (nows : List Int) (k : Nat)
    (h : lookupT s.m_timeoutCallbacks k = none) : (RunUpdates s nows).2.count k = 0 := by
  induction nows generalizing s with
  | nil => rfl
  | cons now rest ih =>
    obtain ⟨h1, h2⟩ := scan_cbs_none now s.m_timepoints s.m_timeoutCallbacks k h
    show ((Update s now).2.1 ++ (RunUpdates (Update s now).1 rest).2).count k = 0
    rw [List.count_append, Update_fired_eq, List.count_eq_zero_of_not_mem h2,
      ih _ (by rw [Update_cbs_eq]; exact h1)]

theorem RunUpdates_fire_count_le_one (s : SchedState) (nows : List Int) (k : Nat) :
    (RunUpdates s nows).2.count k ≤ 1 := by
  induction nows generalizing s with
  | nil => exact Nat.zero_le 1
  | cons now rest ih =>
    show ((Update s now).2.1 ++ (RunUpdates (Update s now).1 rest).2).count k ≤ 1
    rw [List.count_append]
    by_cases hz : (Update s now).2.1.count k = 0
    · rw [hz]
      simpa using ih (Update s now).1
    · have hk : k ∈ (scanTimeouts now s.m_timepoints s.m_timeoutCallbacks).2.2 := by
        rw [← Update_fired_eq]
        exact List.count_pos_iff.mp (Nat.pos_of_ne_zero hz)
      have h1 := scan_fired_cbs_none now s.m_timepoints s.m_timeoutCallbacks k hk
      have h2 := RunUpdates_no_fire (Update s now).1 rest k (by rw [Update_cbs_eq]; exact h1)
      have h3 := scan_fired_count_le_one now s.m_timepoints s.m_timeoutCallbacks k
      have h4 : (Update s now).2.1.count k ≤ 1 := by rw [Update_fired_eq]; exact h3
      omega

theorem lookupT_filter_some {κ β : Type} [DecidableEq κ] (l : Table κ β)
    (P : κ × β → Bool) (k : κ) (v : β) (h : lookupT l k = some v)
    (hp : P (k, v) = true) : lookupT (l.filter P) k = some v := by
  induction l with
  | nil => cases h
  | cons p rest ih =>
    obtain ⟨a, b⟩ := p
    by_cases ha : a = k
    · rw [lookupT, if_pos ha] at h
      injection h with h
      subst h
      subst ha
      simp [List.filter_cons, hp, lookupT]
    · rw [lookupT, if_neg ha] at h
      rw [List.filter_cons]
      split
      · rw [lookupT, if_neg ha]
        exact ih h
      · exact ih h

theorem lookupT_filter_none {κ β : Type} [DecidableEq κ] (l : Table κ β)
    (P : κ × β → Bool) (k : κ) (h : ∀ v, (k, v) ∈ l → P (k, v) = false) :
    lookupT (l.filter P) k = none := by
  rw [lookupT_eq_none_iff]
  intro hc
  rcases List.mem_map.mp hc with ⟨⟨k2, v⟩, hmem, hk⟩
  obtain ⟨hmem2, hP⟩ := List.mem_filter.mp hmem
  subst hk
  rw [h v hmem2] at hP
  cases hP

theorem mem_eq_of_nodup {κ β : Type} [DecidableEq κ] (l : Table κ β) (k : κ) (v1 v2 : β)
    (hnd : (l.map Prod.fst).Nodup) (h1 : (k, v1) ∈ l) (h2 : (k, v2) ∈ l) : v1 = v2 := by
  have e1 := lookupT_of_mem_nodup l k v1 hnd h1
  have e2 := lookupT_of_mem_nodup l k v2 hnd h2
  rw [e1] at e2
  exact Option.some.inj e2

theorem lookupT_mem {κ β : Type} [DecidableEq κ] (l : Table κ β) (k : κ) (v : β)
    (h : lookupT l k = some v) : (k, v) ∈ l := by
  induction l with
  | nil => cases h
  | cons p rest ih =>
    obtain ⟨a, b⟩ := p
    by_cases ha : a = k
    · rw [lookupT, if_pos ha] at h
      injection h with h
      subst h
      subst ha
      exact List.mem_cons_self _ _
    · rw [lookupT, if_neg ha] at h
      exact List.mem_cons_of_mem _ (ih h)

/-- C6: across any sequence of `Update` calls the timeout handler for a task
fires at most once; it fires at a given `Update` only if that task has a
Timeout Entry whose elapsed time has reached its duration (never before the
deadline); and the firing `Update` removes both the timepoint and the stored
handler in the same step. -/
theorem timeout_fires_once (s : SchedState) (nows : List Int) (now : Int) (id : Nat)
    (hnd : (s.m_timepoints.map Prod.fst).Nodup) (hin : id ∈ (Update s now).2.1) :
    (RunUpdates s nows).2.count id ≤ 1 ∧
    (∃ tt, (id, tt) ∈ s.m_timepoints ∧ now - tt.StartedTime ≥ tt.TimeoutMs) ∧
    lookupT (Update s now).1.m_timepoints id = none ∧
    lookupT (Update s now).1.m_timeoutCallbacks id = none := by
  rw [Update_fired_eq] at hin
  obtain ⟨hcb, tt, hmem, hexp⟩ := scan_fired_mem now s.m_timepoints s.m_timeoutCallbacks id hin
  refine ⟨RunUpdates_fire_count_le_one s nows id, ⟨tt, hmem, hexp⟩, ?_, ?_⟩
  · rw [Update_tps_eq, scan_tps_filter]
    apply lookupT_filter_none
    intro v hv
    have hveq : v = tt := mem_eq_of_nodup s.m_timepoints id v tt hnd hv hmem
    subst hveq
    simp [hexp]
  · rw [Update_cbs_eq]
    exact scan_fired_cbs_none now s.m_timepoints s.m_timeoutCallbacks id hin

/-- A state with one expired-at-150 timeout entry for task 0. -/
def sTimeout : SchedState :=
  ⟨[], [], [(0, ⟨100, 0⟩)], [(0, true)], [("DefaultPool", ⟨2, [0]⟩)], 1, true, "DefaultPool"⟩

theorem timeout_fires_once_witness :
    (RunUpdates sTimeout [150, 200]).2.count 0 ≤ 1 ∧
    (∃ tt, (0, tt) ∈ sTimeout.m_timepoints ∧ 150 - tt.StartedTime ≥ tt.TimeoutMs) ∧
    lookupT (Update sTimeout 150).1.m_timepoints 0 = none ∧
    lookupT (Update sTimeout 150).1.m_timeoutCallbacks 0 = none :=
  timeout_fires_once sTimeout [150, 200] 150 0 (by decide) (by decide)

/-- Whether a result of a throwing scheduler operation is a success. -/
def isOkE {α : Type} : Except SchedErr α → Bool
| .ok _ => true
| .error _ => false

/-- The (id, state) produced by `Initialize` then a submission through
`CreateTaskTimeout` with a 100 ms timeout taken at time 0. -/
def afterSubmitTimeout : Nat × SchedState :=
  match CreateTaskTimeout (Initialize initState "DefaultPool" 2) "DefaultPool" 100 0
      (Except.ok 7) with
  | .ok r => r
  | .error _ => (0, initState)

/-- C5 as stated is false: a task that completes and is reaped before its
deadline keeps its Timeout Entry. Submit with a 100 ms timeout at time 0,
let the worker finish, `Update` at time 10: the task is reaped but the
timepoint entry survives (and so does the stored handler). -/
theorem reaped_task_keeps_timeout_entry :
    isOkE (CreateTaskTimeout (Initialize initState "DefaultPool" 2) "DefaultPool" 100 0
      (Except.ok 7)) = true ∧
    lookupT (Update (FinishTask afterSubmitTimeout.2 afterSubmitTimeout.1) 10).1.m_tasks
      afterSubmitTimeout.1 = none ∧
    (lookupT (Update (FinishTask afterSubmitTimeout.2 afterSubmitTimeout.1)
        10).1.m_timepoints afterSubmitTimeout.1).isSome = true ∧
    (lookupT (Update (FinishTask afterSubmitTimeout.2 afterSubmitTimeout.1)
        10).1.m_timeoutCallbacks afterSubmitTimeout.1).isSome = true := by decide

/-- C5 (amended): a Timeout Entry is removed only by the expiry scan of
`Update`: an `Update` at time `now` removes the entry of `id` iff its
elapsed time has reached its duration — independent of whether the task was
delivered and reaped in that same call — and `ForceWait` leaves both
timeout tables untouched, so a task reaped before its deadline keeps its
Timeout Entry until it expires. -/
theorem timeout_entry_removed_only_on_expiry (s : SchedState) (now : Int) (id : Nat)
    (tt : TaskTimeout) (hnd : (s.m_timepoints.map Prod.fst).Nodup)
    (h : lookupT s.m_timepoints id = some tt) :
    (lookupT (Update s now).1.m_timepoints id = none ↔
      now - tt.StartedTime ≥ tt.TimeoutMs) ∧
    (ForceWait s id).1.m_timepoints = s.m_timepoints ∧
    (ForceWait s id).1.m_timeoutCallbacks = s.m_timeoutCallbacks := by
  refine ⟨⟨?_, ?_⟩, ?_, ?_⟩
  · intro hrem
    by_contra hex
    rw [Update_tps_eq, scan_tps_filter,
      lookupT_filter_some s.m_timepoints _ id tt h (by simpa using hex)] at hrem
    cases hrem
  · intro hex
    rw [Update_tps_eq, scan_tps_filter]
    apply lookupT_filter_none
    intro v hv
    have hveq : v = tt :=
      mem_eq_of_nodup s.m_timepoints id v tt hnd hv (lookupT_mem s.m_timepoints id tt h)
    subst hveq
    simp [hex]
  · unfold ForceWait
    rcases lookupT s.m_tasks id with _ | w <;> rfl
  · unfold ForceWait
    rcases lookupT s.m_tasks id with _ | w <;> rfl

theorem timeout_entry_removed_only_on_expiry_witness :
    (lookupT (Update sTimeout 150).1.m_timepoints 0 = none ↔
      (150 : Int) - (⟨100, 0⟩ : TaskTimeout).StartedTime ≥
        (⟨100, 0⟩ : TaskTimeout).TimeoutMs) ∧
    (ForceWait sTimeout 0).1.m_timepoints = sTimeout.m_timepoints ∧
    (ForceWait sTimeout 0).1.m_timeoutCallbacks = sTimeout.m_timeoutCallbacks :=
  timeout_entry_removed_only_on_expiry sTimeout 150 0 ⟨100, 0⟩ (by decide) (by decide)

/-- C4 as stated is false: `ForceWait` erases the task-table and token-table
entries but not the timeout tables. After a timed submission, `ForceWait`
removes the task yet both timeout tables still hold the id. -/
theorem forcewait_leaves_timeout_tables :
    lookupT (ForceWait afterSubmitTimeout.2 afterSubmitTimeout.1).1.m_tasks
      afterSubmitTimeout.1 = none ∧
    (lookupT (ForceWait afterSubmitTimeout.2 afterSubmitTimeout.1).1.m_timepoints
      afterSubmitTimeout.1).isSome = true ∧
    (lookupT (ForceWait afterSubmitTimeout.2 afterSubmitTimeout.1).1.m_timeoutCallbacks
      afterSubmitTimeout.1).isSome = true := by decide

/-- C4 (amended): `ForceWait` on a tracked id force-delivers the callback
(with the produced value, once ready) and removes the task-table and
token-table entries, but leaves the timepoint and timeout-handler tables
untouched; `ForceWait` on an untracked id is a no-op and raises no error. -/
theorem forcewait_removes_task_and_token_only (s : SchedState) (id : Nat) :
    (lookupT s.m_tasks id = none → ForceWait s id = (s, [])) ∧
    (∀ w, lookupT s.m_tasks id = some w →
      lookupT (ForceWait s id).1.m_tasks id = none ∧
      lookupT (ForceWait s id).1.m_cancellations id = none ∧
      (ForceWait s id).1.m_timepoints = s.m_timepoints ∧
      (ForceWait s id).1.m_timeoutCallbacks = s.m_timeoutCallbacks ∧
      (∀ v, w.taskResult = Except.ok v → w.taskValid = true → w.CallbackInvoked = false →
        (ForceWait s id).2 = [(id, v)])) := by
  constructor
  · intro h
    unfold ForceWait
    rw [h]
  · intro w h
    unfold ForceWait
    rw [h]
    refine ⟨lookupT_eraseT_self _ _, lookupT_eraseT_self _ _, rfl, rfl, ?_⟩
    intro v hv h1 h2
    show ((Wrapper.ForceWait w).2.map fun v => (id, v)) = [(id, v)]
    unfold Wrapper.ForceWait
    rw [h1, h2, hv]
    simp

theorem forcewait_removes_task_and_token_only_witness :
    lookupT (ForceWait sOneTask 0).1.m_tasks 0 = none ∧
    lookupT (ForceWait sOneTask 0).1.m_cancellations 0 = none ∧
    (ForceWait sOneTask 0).1.m_timepoints = sOneTask.m_timepoints ∧
    (ForceWait sOneTask 0).1.m_timeoutCallbacks = sOneTask.m_timeoutCallbacks ∧
    (ForceWait sOneTask 0).2 = [(0, 5)] := by
  obtain ⟨h1, h2, h3, h4, h5⟩ :=
    (forcewait_removes_task_and_token_only sOneTask 0).2
      ⟨0, true, true, Except.ok 5, false⟩ (by decide)
  exact ⟨h1, h2, h3, h4, h5 5 (by decide) (by decide) (by decide)⟩

/-- The (id, state) after `Initialize`, `CreatePool("other", 1)`, and a
submission through `CreateTaskTimeout` naming pool "other". -/
def afterSubmitTimeoutOther : Nat × SchedState :=
  match CreatePool (Initialize initState "DefaultPool" 2) "other" 1 with
  | .ok s =>
    (match CreateTaskTimeout s "other" 100 0 (Except.ok 7) with
     | .ok r => r
     | .error _ => (0, initState))
  | .error _ => (0, initState)

/-- C2 fails on the code: `CreateTaskTimeout` passes `m_defaultPoolName`
instead of its `poolName` parameter to `CreateTaskInPool` (SimpleAsync.h,
line 144). With pools "DefaultPool" and "other", a timed submission naming
"other" enqueues the task into "DefaultPool" and leaves "other" empty —
while the Timeout Entry is recorded as specified (start 0, duration 100,
handler stored). -/
theorem createTaskTimeout_ignores_poolName :
    lookupT afterSubmitTimeoutOther.2.m_threadPools "other" = some ⟨1, []⟩ ∧
    lookupT afterSubmitTimeoutOther.2.m_threadPools "DefaultPool" =
      some ⟨2, [afterSubmitTimeoutOther.1]⟩ ∧
    lookupT afterSubmitTimeoutOther.2.m_timepoints afterSubmitTimeoutOther.1 =
      some ⟨100, 0⟩ ∧
    (lookupT afterSubmitTimeoutOther.2.m_timeoutCallbacks
      afterSubmitTimeoutOther.1).isSome = true := by decide

/-- C7 as stated is false: `Destroy` clears only the task table and the
pools. After a timed submission, the token entry and both timeout entries
survive `Destroy`, and still survive a subsequent `Initialize`. -/
theorem destroy_leaves_token_and_timeout_tables :
    (lookupT (Destroy afterSubmitTimeout.2).m_cancellations
      afterSubmitTimeout.1).isSome = true ∧
    (lookupT (Destroy afterSubmitTimeout.2).m_timepoints
      afterSubmitTimeout.1).isSome = true ∧
    (lookupT (Destroy afterSubmitTimeout.2).m_timeoutCallbacks
      afterSubmitTimeout.1).isSome = true ∧
    (lookupT (Initialize (Destroy afterSubmitTimeout.2) "DefaultPool" 2).m_cancellations
      afterSubmitTimeout.1).isSome = true := by decide

/-- C7 (amended): `Destroy` clears the task table and the pools, without
invoking any pending callback (it emits no event); the cancellation-token
table, both timeout tables, the id counter and the initialized flag are
left as they were, so `Destroy` followed by `Initialize` yields a fresh
task table and pool map but retains any residual token and timeout
entries. -/
theorem destroy_clears_tasks_and_pools_only (s : SchedState) (n : String) (t : Nat) :
    (Destroy s).m_tasks = [] ∧
    (Destroy s).m_threadPools = [] ∧
    (Destroy s).m_cancellations = s.m_cancellations ∧
    (Destroy s).m_timepoints = s.m_timepoints ∧
    (Destroy s).m_timeoutCallbacks = s.m_timeoutCallbacks ∧
    (Destroy s).Initialized = s.Initialized ∧
    (Destroy s).m_id = s.m_id ∧
    (Initialize (Destroy s) n t).m_tasks = [] ∧
    (Initialize (Destroy s) n t).m_cancellations = s.m_cancellations ∧
    (Initialize (Destroy s) n t).m_timepoints = s.m_timepoints ∧
    (Initialize (Destroy s) n t).m_timeoutCallbacks = s.m_timeoutCallbacks :=
  ⟨rfl, rfl, rfl, rfl, rfl, rfl, rfl, rfl, rfl, rfl, rfl⟩

/-- C8 as stated is false: after `Destroy`, not every operation is an error.
`CreatePool` succeeds on a destroyed scheduler, `Update` is a normal no-op,
and `ForceWait`/`Cancel` return without error; a submission fails — but
with the unknown-pool error, not the not-initialized one, because `Destroy`
never resets `m_initialized`. -/
theorem operations_after_destroy_not_errors :
    isOkE (CreatePool (Destroy (Initialize initState "DefaultPool" 2)) "P" 1) = true ∧
    Update (Destroy (Initialize initState "DefaultPool" 2)) 0 =
      (Destroy (Initialize initState "DefaultPool" 2), [], []) ∧
    ForceWait (Destroy (Initialize initState "DefaultPool" 2)) 0 =
      (Destroy (Initialize initState "DefaultPool" 2), []) ∧
    Cancel (Destroy (Initialize initState "DefaultPool" 2)) 0 =
      Destroy (Initialize initState "DefaultPool" 2) ∧
    CreateTaskInPool (Destroy (Initialize initState "DefaultPool" 2)) "DefaultPool"
      (Except.ok 1) = Except.error SchedErr.UnknownPool := by decide

/-- C8 (amended): a submission before `Initialize` fails with
`NotInitialized`, and with `UnknownPool` when the named pool does not
exist; but `Destroy` does not reset the initialized flag, so operations
after `Destroy` are not uniformly errors: a submission then fails with
`UnknownPool` (the pools having been cleared, not the flag), `ForceWait`
and `Cancel` are silent no-ops, and `CreatePool` succeeds. -/
theorem scheduler_lifecycle_errors (s : SchedState) (p : String) (res : Except String Nat)
    (id : Nat) :
    (s.Initialized = false → CreateTaskInPool s p res = Except.error SchedErr.NotInitialized) ∧
    (s.Initialized = true → lookupT s.m_threadPools p = none →
      CreateTaskInPool s p res = Except.error SchedErr.UnknownPool) ∧
    (Destroy s).Initialized = s.Initialized ∧
    (s.Initialized = true →
      CreateTaskInPool (Destroy s) p res = Except.error SchedErr.UnknownPool) ∧
    ForceWait (Destroy s) id = (Destroy s, []) ∧
    Cancel (Destroy s) id = Destroy s := by
  refine ⟨?_, ?_, rfl, ?_, ?_, ?_⟩
  · intro h
    unfold CreateTaskInPool
    rw [h]
    rfl
  · intro h1 h2
    unfold CreateTaskInPool
    rw [h1, h2]
    rfl
  · intro h1
    unfold CreateTaskInPool
    show (if !(Destroy s).Initialized then _ else _) = _
    rw [show (Destroy s).Initialized = s.Initialized from rfl, h1]
    rfl
  · unfold ForceWait
    rfl
  · unfold Cancel
    rfl

theorem scheduler_lifecycle_errors_witness :
    CreateTaskInPool initState "DefaultPool" (Except.ok 1) =
      Except.error SchedErr.NotInitialized ∧
    CreateTaskInPool (Initialize initState "DefaultPool" 2) "nope" (Except.ok 1) =
      Except.error SchedErr.UnknownPool ∧
    CreateTaskInPool (Destroy (Initialize initState "DefaultPool" 2)) "nope"
      (Except.ok 1) = Except.error SchedErr.UnknownPool ∧
    ForceWait (Destroy (Initialize initState "DefaultPool" 2)) 3 =
      (Destroy (Initialize initState "DefaultPool" 2), []) := by
  obtain ⟨h1, h2, h3, h4, h5, h6⟩ :=
    scheduler_lifecycle_errors (Initialize initState "DefaultPool" 2) "nope"
      (Except.ok 1) 3
  exact ⟨(scheduler_lifecycle_errors initState "DefaultPool" (Except.ok 1) 3).1 (by decide),
    h2 (by decide) (by decide), h4 (by decide), h5⟩

/-- C9: `CreatePool` fails with `EmptyName` iff the name is the empty
string; it fails with `DuplicatePool` iff a pool with that name already
exists (stated under the reachable-state invariant that no pool is
registered under the empty name: `CreatePool` refuses it and `Initialize`
substitutes "DefaultPool"); otherwise it adds a pool with the requested
thread count under that name and leaves every other pool and every other
table unchanged. -/
theorem createPool_spec (s : SchedState) (name : String) (n : Nat)
    (hno : lookupT s.m_threadPools "" = none) :
    (CreatePool s name n = Except.error SchedErr.EmptyName ↔ name = "") ∧
    (CreatePool s name n = Except.error SchedErr.DuplicatePool ↔
      (lookupT s.m_threadPools name).isSome = true) ∧
    (∀ s2, CreatePool s name n = Except.ok s2 →
      lookupT s2.m_threadPools name = some ⟨n, []⟩ ∧
      (∀ q, q ≠ name → lookupT s2.m_threadPools q = lookupT s.m_threadPools q) ∧
      s2.m_tasks = s.m_tasks ∧ s2.m_cancellations = s.m_cancellations ∧
      s2.m_timepoints = s.m_timepoints ∧ s2.m_timeoutCallbacks = s.m_timeoutCallbacks ∧
      s2.m_id = s.m_id ∧ s2.Initialized = s.Initialized) := by
  by_cases hname : name = ""
  · subst hname
    have hc : CreatePool s "" n = Except.error SchedErr.EmptyName := by
      unfold CreatePool
      rw [if_pos rfl]
    refine ⟨⟨fun _ => rfl, fun _ => hc⟩, ⟨?_, ?_⟩, ?_⟩
    · intro h
      exact absurd (hc.symm.trans h) (by decide)
    · intro h
      rw [hno] at h
      simp at h
    · intro s2 h
      exact Except.noConfusion (hc.symm.trans h)
  · rcases hl : lookupT s.m_threadPools name with _ | pool
    · have hok : CreatePool s name n =
          Except.ok { s with m_threadPools := insertT s.m_threadPools name ⟨n, []⟩ } := by
        unfold CreatePool
        rw [if_neg hname, hl]
      refine ⟨⟨?_, fun hc => absurd hc hname⟩, ⟨?_, ?_⟩, ?_⟩
      · intro h
        exact Except.noConfusion (hok.symm.trans h)
      · intro h
        exact Except.noConfusion (hok.symm.trans h)
      · intro h
        simp at h
      · intro s2 h
        have hs2 : { s with m_threadPools := insertT s.m_threadPools name ⟨n, []⟩ } = s2 :=
          Except.ok.inj (hok.symm.trans h)
        subst hs2
        refine ⟨lookupT_insertT_self _ _ _, ?_, rfl, rfl, rfl, rfl, rfl, rfl⟩
        intro q hq
        exact lookupT_insertT_ne _ _ _ _ hq
    · have hdup : CreatePool s name n = Except.error SchedErr.DuplicatePool := by
        unfold CreatePool
        rw [if_neg hname, hl]
      refine ⟨⟨?_, fun hc => absurd hc hname⟩, ⟨fun _ => rfl, fun _ => hdup⟩, ?_⟩
      · intro h
        exact absurd (hdup.symm.trans h) (by decide)
      · intro s2 h
        exact Except.noConfusion (hdup.symm.trans h)

theorem createPool_spec_witness :
    (CreatePool initState "A" 2 = Except.error SchedErr.EmptyName ↔ ("A" : String) = "") ∧
    (CreatePool initState "A" 2 = Except.error SchedErr.DuplicatePool ↔
      (lookupT initState.m_threadPools "A").isSome = true) :=
  ⟨(createPool_spec initState "A" 2 (by decide)).1,
   (createPool_spec initState "A" 2 (by decide)).2.1⟩

theorem createTaskInPool_ok (s : SchedState) (p : String) (res : Except String Nat)
    (i2 : Nat) (s2 : SchedState) (h : CreateTaskInPool s p res = Except.ok (i2, s2)) :
    i2 = s.m_id ∧
    s2.m_tasks = insertT s.m_tasks s.m_id ⟨s.m_id, true, false, res, false⟩ ∧
    s2.m_cancellations = insertT s.m_cancellations s.m_id false ∧
    s2.m_timepoints = s.m_timepoints ∧
    s2.m_timeoutCallbacks = s.m_timeoutCallbacks := by
  unfold CreateTaskInPool at h
  split at h
  · exact Except.noConfusion h
  · split at h
    · exact Except.noConfusion h
    · have h2 := Except.ok.inj h
      injection h2 with ha hb
      subst hb
      exact ⟨ha.symm, rfl, rfl, rfl, rfl⟩

theorem createTaskTimeout_ok (s : SchedState) (p : String) (ms now : Int)
    (res : Except String Nat) (i2 : Nat) (s2 : SchedState)
    (h : CreateTaskTimeout s p ms now res = Except.ok (i2, s2)) :
    ∃ s1, CreateTaskInPool s s.m_defaultPoolName res = Except.ok (i2, s1) ∧
      s2.m_tasks = s1.m_tasks ∧
      s2.m_cancellations = s1.m_cancellations ∧
      s2.m_timepoints = insertT s1.m_timepoints i2 ⟨ms, now⟩ ∧
      s2.m_timeoutCallbacks = insertT s1.m_timeoutCallbacks i2 true := by
  unfold CreateTaskTimeout at h
  split at h
  · exact Except.noConfusion h
  · rename_i id s1 heq
    have h2 := Except.ok.inj h
    injection h2 with ha hb
    subst ha
    subst hb
    exact ⟨s1, heq, rfl, rfl, rfl, rfl⟩

theorem createPool_ok (s : SchedState) (p : String) (t : Nat) (s2 : SchedState)
    (h : CreatePool s p t = Except.ok s2) :
    s2.m_tasks = s.m_tasks ∧ s2.m_cancellations = s.m_cancellations ∧
    s2.m_timepoints = s.m_timepoints ∧ s2.m_timeoutCallbacks = s.m_timeoutCallbacks := by
  unfold CreatePool at h
  split at h
  · exact Except.noConfusion h
  · split at h
    · exact Except.noConfusion h
    · have h2 := Except.ok.inj h
      subst h2
      exact ⟨rfl, rfl, rfl, rfl⟩

theorem pollTasks_lookup_isSome (ts : Table Nat Wrapper) (k : Nat)
    (h : (lookupT (pollTasks ts).1 k).isSome = true) : (lookupT ts k).isSome = true := by
  rcases hl : lookupT ts k with _ | w
  · rw [(pollTasks_lookup_none ts k hl).1] at h
    simp at h
  · rfl

theorem lookupT_eraseT_isSome {κ β : Type} [DecidableEq κ] (m : Table κ β) (k k2 : κ)
    (h : (lookupT (eraseT m k) k2).isSome = true) :
    (lookupT m k2).isSome = true ∧ k2 ≠ k := by
  by_cases hk : k2 = k
  · rw [hk, lookupT_eraseT_self] at h
    simp at h
  · rw [lookupT_eraseT_ne m k k2 hk] at h
    exact ⟨h, hk⟩

/-- Every id in the task table has an entry in the token table. -/
abbrev TokInv (s : SchedState) : Prop :=
  ∀ k, (lookupT s.m_tasks k).isSome = true → (lookupT s.m_cancellations k).isSome = true

/-- C10: `Update` never modifies the token table — so a task reaped by Poll
leaves a residual token entry permanently; among the scheduler operations
only `ForceWait` erases token entries (`Cancel`, `Destroy`, `Initialize`,
`CreatePool`, `CreateTaskInPool`, `CreateTaskTimeout` all preserve the
presence of an existing entry); and the invariant that every id in the task
table has a token entry is preserved by every operation. -/
theorem poll_leaves_token_entries (s : SchedState) (now ms : Int) (id id2 : Nat)
    (n p : String) (t : Nat) (res : Except String Nat) :
    (Update s now).1.m_cancellations = s.m_cancellations ∧
    ((lookupT s.m_cancellations id).isSome = true →
      (lookupT (Cancel s id2).m_cancellations id).isSome = true ∧
      (lookupT (Destroy s).m_cancellations id).isSome = true ∧
      (lookupT (Initialize s n t).m_cancellations id).isSome = true ∧
      (∀ s2, CreatePool s p t = Except.ok s2 →
        (lookupT s2.m_cancellations id).isSome = true) ∧
      (∀ i2 s2, CreateTaskInPool s p res = Except.ok (i2, s2) →
        (lookupT s2.m_cancellations id).isSome = true) ∧
      (∀ i2 s2, CreateTaskTimeout s p ms now res = Except.ok (i2, s2) →
        (lookupT s2.m_cancellations id).isSome = true)) ∧
    (TokInv s →
      TokInv (Update s now).1 ∧ TokInv (ForceWait s id2).1 ∧ TokInv (Cancel s id2) ∧
      TokInv (Destroy s) ∧ TokInv (Initialize s n t) ∧
      (∀ s2, CreatePool s p t = Except.ok s2 → TokInv s2) ∧
      (∀ i2 s2, CreateTaskInPool s p res = Except.ok (i2, s2) → TokInv s2) ∧
      (∀ i2 s2, CreateTaskTimeout s p ms now res = Except.ok (i2, s2) → TokInv s2)) := by
  refine ⟨rfl, ?_, ?_⟩
  · intro hs
    refine ⟨?_, hs, hs, ?_, ?_, ?_⟩
    · show (lookupT (Cancel s id2).m_cancellations id).isSome = true
      unfold Cancel
      rcases lookupT s.m_tasks id2 with _ | w
      · exact hs
      · exact lookupT_isSome_insertT _ _ _ _ hs
    · intro s2 h
      rw [(createPool_ok s p t s2 h).2.1]
      exact hs
    · intro i2 s2 h
      rw [(createTaskInPool_ok s p res i2 s2 h).2.2.1]
      exact lookupT_isSome_insertT _ _ _ _ hs
    · intro i2 s2 h
      rcases createTaskTimeout_ok s p ms now res i2 s2 h with ⟨s1, heq, _, hc, _, _⟩
      rw [hc, (createTaskInPool_ok s s.m_defaultPoolName res i2 s1 heq).2.2.1]
      exact lookupT_isSome_insertT _ _ _ _ hs
  · intro hI
    refine ⟨?_, ?_, ?_, ?_, hI, ?_, ?_, ?_⟩
    · intro k hk
      exact hI k (pollTasks_lookup_isSome s.m_tasks k hk)
    · show TokInv (ForceWait s id2).1
      unfold ForceWait
      rcases lookupT s.m_tasks id2 with _ | w
      · exact hI
      · intro k hk
        obtain ⟨htk, hne⟩ := lookupT_eraseT_isSome s.m_tasks id2 k hk
        rw [lookupT_eraseT_ne s.m_cancellations id2 k hne]
        exact hI k htk
    · show TokInv (Cancel s id2)
      unfold Cancel
      rcases lookupT s.m_tasks id2 with _ | w
      · exact hI
      · intro k hk
        exact lookupT_isSome_insertT _ _ _ _ (hI k hk)
    · intro k hk
      simp [lookupT] at hk
    · intro s2 h
      obtain ⟨ht, hc, _, _⟩ := createPool_ok s p t s2 h
      intro k hk
      rw [hc]
      rw [ht] at hk
      exact hI k hk
    · intro i2 s2 h
      obtain ⟨hid, ht, hc, _, _⟩ := createTaskInPool_ok s p res i2 s2 h
      intro k hk
      rw [hc]
      rw [ht] at hk
      by_cases hk2 : k = s.m_id
      · rw [hk2, lookupT_insertT_self]
        rfl
      · rw [lookupT_insertT_ne _ _ _ _ hk2] at hk
        exact lookupT_isSome_insertT _ _ _ _ (hI k hk)
    · intro i2 s2 h
      rcases createTaskTimeout_ok s p ms now res i2 s2 h with ⟨s1, heq, ht, hc, _, _⟩
      obtain ⟨hid, ht1, hc1, _, _⟩ :=
        createTaskInPool_ok s s.m_defaultPoolName res i2 s1 heq
      intro k hk
      rw [hc, hc1]
      rw [ht, ht1] at hk
      by_cases hk2 : k = s.m_id
      · rw [hk2, lookupT_insertT_self]
        rfl
      · rw [lookupT_insertT_ne _ _ _ _ hk2] at hk
        exact lookupT_isSome_insertT _ _ _ _ (hI k hk)

/-- A state with one finished task (id 0) and its token, plus a second
residual token entry (id 7) from an earlier reaped task. -/
def sTok : SchedState :=
  ⟨[(0, ⟨0, true, true, Except.ok 5, false⟩)], [(0, false), (7, true)], [], [],
   [("DefaultPool", ⟨2, [0]⟩)], 8, true, "DefaultPool"⟩

theorem poll_leaves_token_entries_witness :
    (Update sTok 0).1.m_cancellations = sTok.m_cancellations ∧
    (lookupT (Cancel sTok 0).m_cancellations 7).isSome = true ∧
    (lookupT (Destroy sTok).m_cancellations 7).isSome = true ∧
    TokInv (Update sTok 0).1 ∧ TokInv (ForceWait sTok 0).1 := by
  have hTok : TokInv sTok := by
    intro k hk
    by_cases h0 : (0 : Nat) = k
    · subst h0
      decide
    · have hz : lookupT sTok.m_tasks k = none := by
        show lookupT [(0, (⟨0, true, true, Except.ok 5, false⟩ : Wrapper))] k = none
        simp [lookupT, h0]
      rw [hz] at hk
      simp at hk
  obtain ⟨h1, h2, h3⟩ := poll_leaves_token_entries sTok 0 0 7 0 "P" "P" 1 (Except.ok 1)
  obtain ⟨h21, h22, _⟩ := h2 (by decide)
  obtain ⟨h31, h32, _⟩ := h3 hTok
  exact ⟨h1, h21, h22, h31, h32⟩

end SA
